import Mathlib

/-!
Verification of the attention-benchmark utilities of LLM-Attention-DeepDive.

The shared header `src/attention_common.h` is embedded directly: machine
`int` arithmetic is modelled as wrapping 32-bit two's-complement integers,
`size_t` arithmetic is modelled modulo `2 ^ 64`, and single-precision
floating-point arithmetic is idealised as exact rational (or real)
arithmetic except where IEEE NaN behaviour is itself the point, in which
case a dedicated value type `FVal` with IEEE comparison rules is used.
The three attention kernels (`attention_naive.hip`, `attention_shared.hip`,
`attention_flash.hip`) are not among the provided sources; they are
modelled from the specification over exact reals.
-/

namespace AttentionDeepDive

/-! ## Constants from attention_common.h -/

def WARP_SIZE : ℤ := 64

def MAX_SEQ_LEN : ℤ := 4096

def MAX_HEAD_DIM : ℤ := 128

/-! ## Machine arithmetic model -/

/-- Wrap an integer into the 32-bit two's-complement range, the result of
storing it in a C `int`. -/
def wrap32 (z : ℤ) : ℤ := (z + 2 ^ 31) % 2 ^ 32 - 2 ^ 31

/-- C `int` multiplication (32-bit, wrapping). -/
def mulI32 (a b : ℤ) : ℤ := wrap32 (a * b)

/-- Conversion of a C `int` value to `size_t` (64-bit unsigned). -/
def toSizeT (z : ℤ) : ℕ := (z % 2 ^ 64).toNat

/-! ## AttentionConfig (attention_common.h lines 57-81) -/

/-- The `AttentionConfig` struct: four `int` dimensions plus the derived
single-precision `scale` field (idealised as a real number). -/
structure AttentionConfig where
  batch_size : ℤ
  num_heads : ℤ
  seq_len : ℤ
  head_dim : ℤ
  scale : ℝ

/-- The `AttentionConfig(int b, int h, int s, int d)` constructor: it stores
the four dimensions unchanged and derives `scale = 1.0f / sqrtf(head_dim)`.
It performs no validation of any kind. -/
noncomputable def mkAttentionConfig (b h s d : ℤ) : AttentionConfig :=
  { batch_size := b, num_heads := h, seq_len := s, head_dim := d
    scale := 1 / Real.sqrt (d : ℝ) }

/-- `qkv_size()`: `batch_size * num_heads * seq_len * head_dim * sizeof(float)`.
The first three multiplications happen in C `int` (wrapping 32-bit); the final
multiplication by `sizeof(float) = 4` happens in `size_t` (modulo `2 ^ 64`). -/
def qkv_size (c : AttentionConfig) : ℕ :=
  toSizeT (mulI32 (mulI32 (mulI32 c.batch_size c.num_heads) c.seq_len) c.head_dim) * 4 % 2 ^ 64

/-- `output_size()`: defined in the source as `qkv_size()`. -/
def output_size (c : AttentionConfig) : ℕ := qkv_size c

/-- `attention_matrix_size()`:
`batch_size * num_heads * seq_len * seq_len * sizeof(float)` with the same
mixed `int`/`size_t` arithmetic as `qkv_size`. -/
def attention_matrix_size (c : AttentionConfig) : ℕ :=
  toSizeT (mulI32 (mulI32 (mulI32 c.batch_size c.num_heads) c.seq_len) c.seq_len) * 4 % 2 ^ 64

/-- Modelled from the spec: the validity predicate of section 7 (b) for a
workload descriptor — all four dimensions positive and `head_dim` at most
`MAX_HEAD_DIM`.  No code in the provided sources checks this predicate. -/
def validAttentionConfig (c : AttentionConfig) : Prop :=
  0 < c.batch_size ∧ 0 < c.num_heads ∧ 0 < c.seq_len ∧ 0 < c.head_dim ∧
    c.head_dim ≤ MAX_HEAD_DIM

instance (c : AttentionConfig) : Decidable (validAttentionConfig c) := by
  unfold validAttentionConfig; infer_instance

/-! ## print_stats (attention_common.h lines 104-119)

Single-precision arithmetic is idealised as exact rational arithmetic. -/

/-- `float flops = 2.0f * batch_size * num_heads * seq_len * seq_len * head_dim`. -/
def flops (c : AttentionConfig) : ℚ :=
  2 * (c.batch_size : ℚ) * (c.num_heads : ℚ) * (c.seq_len : ℚ) *
    (c.seq_len : ℚ) * (c.head_dim : ℚ)

/-- `float bytes = cfg.qkv_size() * 3 + cfg.output_size()` — the right-hand
side is `size_t` arithmetic (modulo `2 ^ 64`) converted to `float`. -/
def bytesMoved (c : AttentionConfig) : ℚ :=
  ((qkv_size c * 3 % 2 ^ 64 + output_size c) % 2 ^ 64 : ℕ)

/-- `float gflops = flops / (time_ms * 1e6f)`. -/
def gflops (c : AttentionConfig) (time_ms : ℚ) : ℚ :=
  flops c / (time_ms * 1000000)

/-- `float bandwidth_gb = bytes / (time_ms * 1e6f)`. -/
def bandwidth_gb (c : AttentionConfig) (time_ms : ℚ) : ℚ :=
  bytesMoved c / (time_ms * 1000000)

/-- `float arithmetic_intensity = flops / bytes`. -/
def arithmetic_intensity (c : AttentionConfig) : ℚ :=
  flops c / bytesMoved c

/-- The report printed by `print_stats`, as labelled numeric lines plus the
memory-bound classification line. -/
structure PrintStatsReport where
  lines : List (String × ℚ)
  memory_bound : Bool

/-- `print_stats`: prints `Time: %.3f ms`, `GFLOPS: %.2f`,
`Bandwidth: %.2f GB/s`, `Arithmetic Intensity: %.2f FLOP/Byte` and
`Memory-bound: YES/NO` (YES exactly when `arithmetic_intensity < 10`). -/
def print_stats (c : AttentionConfig) (time_ms : ℚ) : PrintStatsReport :=
  { lines := [("Time", time_ms), ("GFLOPS", gflops c time_ms),
      ("Bandwidth", bandwidth_gb c time_ms),
      ("Arithmetic Intensity", arithmetic_intensity c)]
    memory_bound := decide (arithmetic_intensity c < 10) }

/-- The pattern match performed by `run_benchmarks.sh`: grep the report for
a line labelled `label` and extract its numeric value. -/
def extractMetric (r : PrintStatsReport) (label : String) : Option ℚ :=
  (r.lines.find? (fun p => p.1 == label)).map Prod.snd

/-! ## verify_results (attention_common.h lines 92-102)

Here the IEEE special values matter (the NaN comparison behaviour is the
point of one of the claims), so buffer elements are modelled as NaN, the
two infinities, or finite values idealised as exact rationals. -/

/-- A single-precision value as seen by `verify_results`. -/
inductive FVal where
  | nan : FVal
  | inf : FVal
  | ninf : FVal
  | fin (q : ℚ) : FVal
deriving DecidableEq, Repr

/-- IEEE subtraction: NaN propagates, `inf - inf` is NaN, infinities
dominate finite values, finite subtraction is exact. -/
def fsub : FVal → FVal → FVal
  | .nan, _ => .nan
  | _, .nan => .nan
  | .inf, .inf => .nan
  | .inf, _ => .inf
  | .ninf, .ninf => .nan
  | .ninf, _ => .ninf
  | .fin _, .inf => .ninf
  | .fin _, .ninf => .inf
  | .fin a, .fin b => .fin (a - b)

/-- `fabsf`: NaN propagates, both infinities map to `+inf`. -/
def fabsf : FVal → FVal
  | .nan => .nan
  | .inf => .inf
  | .ninf => .inf
  | .fin a => .fin |a|

/-- IEEE `>` comparison: every comparison involving NaN is false. -/
def fgt : FVal → FVal → Bool
  | .nan, _ => false
  | _, .nan => false
  | .inf, .inf => false
  | .inf, _ => true
  | .ninf, _ => false
  | .fin _, .inf => false
  | .fin _, .ninf => true
  | .fin a, .fin b => decide (b < a)

/-- `verify_results(ref, test, n, tol)`: scan both buffers in index order;
at the first index whose absolute difference compares greater than `tol`,
report that index together with both values and return false (modelled as
`some (index, ref value, test value)`); otherwise return true (`none`). -/
def verify_results : List FVal → List FVal → ℚ → Option (ℕ × FVal × FVal)
  | r :: rs, t :: ts, tol =>
    if fgt (fabsf (fsub r t)) (.fin tol) then some (0, r, t)
    else (verify_results rs ts tol).map fun x => (x.1 + 1, x.2)
  | _, _, _ => none

/-! ## init_random (attention_common.h lines 84-89)

The C library's `rand`/`srand` are not part of this repository's sources;
they are modelled as the ISO C sample generator
(`next = next * 1103515245 + 12345; return (next / 65536) % 32768`),
a deterministic function of the seed state. -/

def RAND_MAX : ℕ := 32767

/-- One state advance of the modelled `rand` generator. -/
def randNext (st : ℕ) : ℕ := (st * 1103515245 + 12345) % 2 ^ 64

/-- The value returned by one `rand()` call from the advanced state. -/
def randOut (st : ℕ) : ℕ := st / 65536 % 32768

/-- The fill loop of `init_random`: `n` iterations of
`data[i] = (rand() / (float)RAND_MAX - 0.5f) * 0.1f` from generator state
`st`, returning the written buffer and the final state. -/
def fillRandom : ℕ → ℕ → List ℚ × ℕ
  | 0, st => ([], st)
  | n + 1, st =>
    let st1 := randNext st
    let v : ℚ := ((randOut st1 : ℚ) / (RAND_MAX : ℚ) - 1 / 2) * (1 / 10)
    let rest := fillRandom n st1
    (v :: rest.1, rest.2)

/-- `init_random(data, n, seed)`: `srand(seed)` discards the incoming
generator state and reseeds with `seed`, then the loop fills `n`
elements. -/
def init_random (_rngState : ℕ) (n : ℕ) (seed : ℕ) : List ℚ × ℕ :=
  fillRandom n seed

/-! ## The three attention strategies

Modelled from the spec: `attention_naive.hip`, `attention_shared.hip` and
`attention_flash.hip` are not among the provided sources.  Sections 4.1-4.3
of the spec define all three per (batch, head, query row) over the scored
row `score j = dot (Q i) (K j) * scale` paired with the value rows;
single-precision arithmetic is idealised as exact real arithmetic. -/

/-- Maximum of a list of reals (head-seeded fold; meaningful on nonempty
lists). -/
noncomputable def maxList (L : List ℝ) : ℝ := L.foldl max (L.headD 0)

/-- Dot product over the head_dim channels. -/
noncomputable def dot {d : ℕ} (q k : Fin d → ℝ) : ℝ := ∑ c, q c * k c

/-- Modelled from the spec (§4.1): the scored row for query `i` — for every
key position `j`, the scaled score `dot (Q i) (K j) * scale` paired with the
value row `V j`.  All three strategies consume this data. -/
noncomputable def rowData {s d : ℕ} (scale : ℝ) (Q K V : Fin s → Fin d → ℝ)
    (i : Fin s) : List (ℝ × (Fin d → ℝ)) :=
  (List.finRange s).map fun j => (dot (Q i) (K j) * scale, V j)

/-- The maximum score of a scored row fragment. -/
noncomputable def scoresMax {d : ℕ} (L : List (ℝ × (Fin d → ℝ))) : ℝ :=
  maxList (L.map Prod.fst)

/-- Modelled from the spec (§4.1, reference strategy): two-pass numerically
stabilised softmax-weighted sum over the full scored row — subtract the row
maximum, exponentiate, normalise, weight the value rows. -/
noncomputable def refRow {d : ℕ} (L : List (ℝ × (Fin d → ℝ))) : Fin d → ℝ :=
  let m := scoresMax L
  let l := (L.map fun x => Real.exp (x.1 - m)).sum
  fun c => (L.map fun x => Real.exp (x.1 - m) * x.2 c).sum / l

/-- Partition a list into contiguous blocks of size `t + 1`: every block is
nonempty and the final block may be shorter. -/
def toBlocks (t : ℕ) : List α → List (List α)
  | [] => []
  | x :: xs => (x :: xs.take t) :: toBlocks t (xs.drop t)
termination_by l => l.length
decreasing_by simp [List.length_drop]; omega

/-- Modelled from the spec (§4.2, tiled strategy): the same two-pass softmax
computed blockwise — the row maximum as the maximum of the block maxima, the
normaliser and the weighted sum as sums of blockwise partial sums. -/
noncomputable def tiledRow {d : ℕ} (Bs : List (List (ℝ × (Fin d → ℝ)))) :
    Fin d → ℝ :=
  let m := maxList (Bs.map scoresMax)
  let l := (Bs.map fun B => ((B.map fun x => Real.exp (x.1 - m)).sum)).sum
  fun c =>
    (Bs.map fun B => ((B.map fun x => Real.exp (x.1 - m) * x.2 c).sum)).sum / l

/-- The streaming accumulator triple of §3/§4.3: running max, running
normalisation sum, running weighted-value accumulator. -/
structure StreamState (d : ℕ) where
  m : ℝ
  l : ℝ
  acc : Fin d → ℝ

/-- Modelled from the spec (§4.3): one key/value block of the online
softmax — new running max, rescale of the previous normaliser and
accumulator by `exp (m_old - m_new)`, plus the block's own contribution. -/
noncomputable def streamStep {d : ℕ} (st : StreamState d)
    (B : List (ℝ × (Fin d → ℝ))) : StreamState d :=
  let mNew := max st.m (scoresMax B)
  let corr := Real.exp (st.m - mNew)
  { m := mNew
    l := st.l * corr + (B.map fun x => Real.exp (x.1 - mNew)).sum
    acc := fun c =>
      st.acc c * corr + (B.map fun x => Real.exp (x.1 - mNew) * x.2 c).sum }

/-- Modelled from the spec (§4.3): the first block initialises the state
from its own maximum directly (the `m_old = -infinity` edge case, skipping
the correction step). -/
noncomputable def streamInit {d : ℕ} (B : List (ℝ × (Fin d → ℝ))) :
    StreamState d :=
  let m := scoresMax B
  { m := m
    l := (B.map fun x => Real.exp (x.1 - m)).sum
    acc := fun c => (B.map fun x => Real.exp (x.1 - m) * x.2 c).sum }

/-- Fold the online softmax over the key/value blocks. -/
noncomputable def streamBlocks {d : ℕ} :
    List (List (ℝ × (Fin d → ℝ))) → StreamState d
  | [] => ⟨0, 0, fun _ => 0⟩
  | B :: Bs => Bs.foldl streamStep (streamInit B)

/-- Modelled from the spec (§4.3, streaming strategy): after the last block
the finalised output row is `acc / l`. -/
noncomputable def streamRow {d : ℕ} (Bs : List (List (ℝ × (Fin d → ℝ)))) :
    Fin d → ℝ :=
  let st := streamBlocks Bs
  fun c => st.acc c / st.l

/-- Modelled from the spec (§4.1): the reference (naive) strategy over the
full 4-D tensors, one scored row per (batch, head, query position). -/
noncomputable def reference_strategy (Bn Hn s d : ℕ) (scale : ℝ)
    (Q K V : Fin Bn → Fin Hn → Fin s → Fin d → ℝ) :
    Fin Bn → Fin Hn → Fin s → Fin d → ℝ :=
  fun b h i => refRow (rowData scale (Q b h) (K b h) (V b h) i)

/-- Modelled from the spec (§4.2): the tiled (shared-memory) strategy with
key/value tile size `T + 1`. -/
noncomputable def tiled_strategy (Bn Hn s d : ℕ) (T : ℕ) (scale : ℝ)
    (Q K V : Fin Bn → Fin Hn → Fin s → Fin d → ℝ) :
    Fin Bn → Fin Hn → Fin s → Fin d → ℝ :=
  fun b h i => tiledRow (toBlocks T (rowData scale (Q b h) (K b h) (V b h) i))

/-- Modelled from the spec (§4.3): the streaming (flash) strategy with
key/value block size `T + 1`. -/
noncomputable def streaming_strategy (Bn Hn s d : ℕ) (T : ℕ) (scale : ℝ)
    (Q K V : Fin Bn → Fin Hn → Fin s → Fin d → ℝ) :
    Fin Bn → Fin Hn → Fin s → Fin d → ℝ :=
  fun b h i =>
    streamRow (toBlocks T (rowData scale (Q b h) (K b h) (V b h) i))

/-! ## Helper lemmas about the machine arithmetic -/

lemma wrap32_eq_self {z : ℤ} (h1 : -(2 ^ 31) ≤ z) (h2 : z < 2 ^ 31) :
    wrap32 z = z := by
  unfold wrap32
  have h3 : (0 : ℤ) ≤ z + 2 ^ 31 := by linarith
  have h4 : z + 2 ^ 31 < 2 ^ 32 := by norm_num at h2 ⊢; linarith
  rw [Int.emod_eq_of_lt h3 h4]
  ring

lemma mulI32_eq_mul {a b : ℤ} (ha : 0 ≤ a) (hb : 0 ≤ b) (h : a * b < 2 ^ 31) :
    mulI32 a b = a * b := by
  unfold mulI32
  have hab : 0 ≤ a * b := mul_nonneg ha hb
  exact wrap32_eq_self (by linarith) h

lemma toSizeT_of_nonneg {z : ℤ} (h0 : 0 ≤ z) (h1 : z < 2 ^ 64) :
    (toSizeT z : ℤ) = z := by
  unfold toSizeT
  rw [Int.emod_eq_of_lt h0 h1, Int.toNat_of_nonneg h0]

/-- Under the stated bounds every intermediate `int` product fits in 32 bits,
so `qkv_size` computes the exact mathematical product. -/
lemma qkv_size_eq_of_bounds {b h s d : ℤ} (hb : 0 < b) (hh : 0 < h)
    (hs : 0 < s) (hd : 0 < d) (hbound : b * h * s * d < 2 ^ 31) :
    (qkv_size (mkAttentionConfig b h s d) : ℤ) = b * h * s * d * 4 := by
  have hbh0 : 0 < b * h := mul_pos hb hh
  have hbhs0 : 0 < b * h * s := mul_pos hbh0 hs
  have h1 : b * h ≤ b * h * s := le_mul_of_one_le_right hbh0.le (by omega)
  have h2 : b * h * s ≤ b * h * s * d := le_mul_of_one_le_right hbhs0.le (by omega)
  have hbh : b * h < 2 ^ 31 := lt_of_le_of_lt (h1.trans h2) hbound
  have hbhs : b * h * s < 2 ^ 31 := lt_of_le_of_lt h2 hbound
  unfold qkv_size mkAttentionConfig
  simp only
  rw [mulI32_eq_mul hb.le hh.le hbh, mulI32_eq_mul hbh0.le hs.le hbhs,
    mulI32_eq_mul hbhs0.le hd.le hbound]
  have h0 : (0 : ℤ) ≤ b * h * s * d := (mul_pos hbhs0 hd).le
  have h64 : b * h * s * d < 2 ^ 64 := lt_trans hbound (by norm_num)
  have hnat : (toSizeT (b * h * s * d) : ℤ) = b * h * s * d :=
    toSizeT_of_nonneg h0 h64
  have h31z : (toSizeT (b * h * s * d) : ℤ) < 2 ^ 31 := by rw [hnat]; exact hbound
  have h31 : toSizeT (b * h * s * d) < 2 ^ 31 := by exact_mod_cast h31z
  have hsmall : toSizeT (b * h * s * d) * 4 < 2 ^ 64 := by
    norm_num at h31 ⊢; omega
  rw [Nat.mod_eq_of_lt hsmall]
  push_cast
  rw [hnat]

/-- Under the stated bounds `attention_matrix_size` computes the exact
mathematical product. -/
lemma attention_matrix_size_eq_of_bounds {b h s : ℤ} (d : ℤ) (hb : 0 < b)
    (hh : 0 < h) (hs : 0 < s) (hbound : b * h * s * s < 2 ^ 31) :
    (attention_matrix_size (mkAttentionConfig b h s d) : ℤ) = b * h * s * s * 4 := by
  have hbh0 : 0 < b * h := mul_pos hb hh
  have hbhs0 : 0 < b * h * s := mul_pos hbh0 hs
  have h1 : b * h ≤ b * h * s := le_mul_of_one_le_right hbh0.le (by omega)
  have h2 : b * h * s ≤ b * h * s * s := le_mul_of_one_le_right hbhs0.le (by omega)
  have hbh : b * h < 2 ^ 31 := lt_of_le_of_lt (h1.trans h2) hbound
  have hbhs : b * h * s < 2 ^ 31 := lt_of_le_of_lt h2 hbound
  unfold attention_matrix_size mkAttentionConfig
  simp only
  rw [mulI32_eq_mul hb.le hh.le hbh, mulI32_eq_mul hbh0.le hs.le hbhs,
    mulI32_eq_mul hbhs0.le hs.le hbound]
  have h0 : (0 : ℤ) ≤ b * h * s * s := (mul_pos hbhs0 hs).le
  have h64 : b * h * s * s < 2 ^ 64 := lt_trans hbound (by norm_num)
  have hnat : (toSizeT (b * h * s * s) : ℤ) = b * h * s * s :=
    toSizeT_of_nonneg h0 h64
  have h31z : (toSizeT (b * h * s * s) : ℤ) < 2 ^ 31 := by rw [hnat]; exact hbound
  have h31 : toSizeT (b * h * s * s) < 2 ^ 31 := by exact_mod_cast h31z
  have hsmall : toSizeT (b * h * s * s) * 4 < 2 ^ 64 := by
    norm_num at h31 ⊢; omega
  rw [Nat.mod_eq_of_lt hsmall]
  push_cast
  rw [hnat]

/-! ## Claim theorems: descriptor construction and sizes -/

set_option maxRecDepth 8000

/-- C2 counterexample: the descriptor built from `(1, 8, 256, 200)` has
`head_dim = 200`, which exceeds `MAX_HEAD_DIM = 128`, yet construction
succeeds, the descriptor is not rejected, and the derived byte size is
computed on it — no validation happens at construction. -/
theorem construction_rejects_invalid_ce :
    (mkAttentionConfig 1 8 256 200).head_dim = 200 ∧
      MAX_HEAD_DIM < (mkAttentionConfig 1 8 256 200).head_dim ∧
      ¬ validAttentionConfig (mkAttentionConfig 1 8 256 200) ∧
      qkv_size (mkAttentionConfig 1 8 256 200) = 1638400 := by
  refine ⟨rfl, by decide, by decide, by decide⟩

/-- C2 amended: the `AttentionConfig` constructor performs no validation at
all: for every input — non-positive dimensions and `head_dim > MAX_HEAD_DIM`
included — it stores the four dimensions unchanged and derives `scale`,
producing a descriptor indistinguishable from a valid one. -/
theorem construction_never_rejects (b h s d : ℤ) :
    (mkAttentionConfig b h s d).batch_size = b ∧
      (mkAttentionConfig b h s d).num_heads = h ∧
      (mkAttentionConfig b h s d).seq_len = s ∧
      (mkAttentionConfig b h s d).head_dim = d ∧
      (mkAttentionConfig b h s d).scale = 1 / Real.sqrt (d : ℝ) :=
  ⟨rfl, rfl, rfl, rfl, rfl⟩

/-- C4 counterexample: the descriptor `(8, 16, 4096, 64)` is valid, its
`seq_len` is within `MAX_SEQ_LEN` and `head_dim` within `MAX_HEAD_DIM`,
yet `attention_matrix_size` does not return the exact product
`8 * 16 * 4096 * 4096 * 4 = 2 ^ 33`: the 32-bit `int` product
`8 * 16 * 4096 * 4096 = 2 ^ 31` overflows to `-2 ^ 31` before the
widening conversion to `size_t`. -/
theorem size_functions_exact_ce :
    validAttentionConfig (mkAttentionConfig 8 16 4096 64) ∧
      (mkAttentionConfig 8 16 4096 64).seq_len ≤ MAX_SEQ_LEN ∧
      attention_matrix_size (mkAttentionConfig 8 16 4096 64) ≠
        8 * 16 * 4096 * 4096 * 4 ∧
      attention_matrix_size (mkAttentionConfig 8 16 4096 64) =
        18446744065119617024 := by
  refine ⟨by decide, by decide, by decide, by decide⟩

/-- C4 amended: for every descriptor with positive dimensions,
`seq_len ≤ 4096`, `head_dim ≤ 128`, and whose element counts
`b * h * s * d` and `b * h * s * s` stay below `2 ^ 31` (so that no
intermediate `int` product overflows), `qkv_size` returns exactly
`b * h * s * d * 4` bytes and `attention_matrix_size` exactly
`b * h * s * s * 4` bytes. -/
theorem size_functions_exact (b h s d : ℤ) (hb : 0 < b) (hh : 0 < h)
    (hs : 0 < s) (hd : 0 < d) (hsmax : s ≤ MAX_SEQ_LEN)
    (hdmax : d ≤ MAX_HEAD_DIM) (hq : b * h * s * d < 2 ^ 31)
    (ha : b * h * s * s < 2 ^ 31) :
    (qkv_size (mkAttentionConfig b h s d) : ℤ) = b * h * s * d * 4 ∧
      (attention_matrix_size (mkAttentionConfig b h s d) : ℤ) =
        b * h * s * s * 4 :=
  ⟨qkv_size_eq_of_bounds hb hh hs hd hq,
    attention_matrix_size_eq_of_bounds d hb hh hs ha⟩

/-- C4 witness: the amended statement instantiated at the valid descriptor
`(1, 8, 256, 64)`. -/
theorem size_functions_exact_witness :
    (qkv_size (mkAttentionConfig 1 8 256 64) : ℤ) = 1 * 8 * 256 * 64 * 4 ∧
      (attention_matrix_size (mkAttentionConfig 1 8 256 64) : ℤ) =
        1 * 8 * 256 * 256 * 4 :=
  size_functions_exact 1 8 256 64 (by norm_num) (by norm_num) (by norm_num)
    (by norm_num) (by decide) (by decide) (by norm_num) (by norm_num)

/-! ## Claim theorems: the printed report and its metrics -/

/-- Helper: under the no-overflow bound the `size_t` sum
`qkv_size * 3 + output_size` does not wrap, so `bytesMoved` is the exact
sum of the four buffer byte sizes. -/
lemma bytesMoved_eq_of_bounds {b h s d : ℤ} (hb : 0 < b) (hh : 0 < h)
    (hs : 0 < s) (hd : 0 < d) (hbound : b * h * s * d < 2 ^ 31) :
    bytesMoved (mkAttentionConfig b h s d) =
      (qkv_size (mkAttentionConfig b h s d) : ℚ) +
        (qkv_size (mkAttentionConfig b h s d) : ℚ) +
        (qkv_size (mkAttentionConfig b h s d) : ℚ) +
        (output_size (mkAttentionConfig b h s d) : ℚ) := by
  have hz := qkv_size_eq_of_bounds hb hh hs hd hbound
  set q := qkv_size (mkAttentionConfig b h s d) with hq
  have hqlt : q < 2 ^ 33 := by
    have hzlt : (q : ℤ) < 2 ^ 33 := by
      rw [hz]
      have : b * h * s * d * 4 < 2 ^ 31 * 4 := by linarith
      linarith [this]
    exact_mod_cast hzlt
  have h3 : q * 3 < 2 ^ 64 := by omega
  have h4 : q * 3 + q < 2 ^ 64 := by omega
  unfold bytesMoved output_size
  rw [← hq, Nat.mod_eq_of_lt h3, Nat.mod_eq_of_lt h4]
  push_cast
  ring

/-- C3: evaluation at a concrete run (descriptor `(1, 8, 256, 64)`, one
millisecond): the report printed by `print_stats` has no line labelled
`Latency` and none labelled `Throughput` — its labels are `Time` and
`GFLOPS` — so the pattern match of `run_benchmarks.sh` extracts only the
`Bandwidth` metric and gets nothing for the other two. -/
theorem report_labels_ce :
    extractMetric (print_stats (mkAttentionConfig 1 8 256 64) 1) "Latency" = none ∧
      extractMetric (print_stats (mkAttentionConfig 1 8 256 64) 1) "Throughput" = none ∧
      (extractMetric (print_stats (mkAttentionConfig 1 8 256 64) 1) "Bandwidth").isSome = true ∧
      (extractMetric (print_stats (mkAttentionConfig 1 8 256 64) 1) "Time").isSome = true ∧
      (extractMetric (print_stats (mkAttentionConfig 1 8 256 64) 1) "GFLOPS").isSome = true := by
  refine ⟨by decide, by decide, by decide, by decide, by decide⟩

/-- C5: for every descriptor within the no-overflow bound and every positive
measured time, `print_stats` derives total FLOPs as exactly
`2 * batch * heads * seq_len ^ 2 * head_dim`, total bytes as exactly
`bytes(Q) + bytes(K) + bytes(V) + bytes(Output)` (each the code's own buffer
byte size), throughput as FLOPs divided by time (reported in units of
`10 ^ 9` FLOP/s with time converted from ms to s), bandwidth as bytes
divided by time (same units), and arithmetic intensity as FLOPs divided
by bytes. -/
theorem metric_derivation (b h s d : ℤ) (t : ℚ) (hb : 0 < b) (hh : 0 < h)
    (hs : 0 < s) (hd : 0 < d) (hbound : b * h * s * d < 2 ^ 31)
    (ht : 0 < t) :
    flops (mkAttentionConfig b h s d) =
        2 * (b : ℚ) * (h : ℚ) * (s : ℚ) * (s : ℚ) * (d : ℚ) ∧
      bytesMoved (mkAttentionConfig b h s d) =
        (qkv_size (mkAttentionConfig b h s d) : ℚ) +
          (qkv_size (mkAttentionConfig b h s d) : ℚ) +
          (qkv_size (mkAttentionConfig b h s d) : ℚ) +
          (output_size (mkAttentionConfig b h s d) : ℚ) ∧
      gflops (mkAttentionConfig b h s d) t * 10 ^ 9 =
        flops (mkAttentionConfig b h s d) / (t / 1000) ∧
      bandwidth_gb (mkAttentionConfig b h s d) t * 10 ^ 9 =
        bytesMoved (mkAttentionConfig b h s d) / (t / 1000) ∧
      arithmetic_intensity (mkAttentionConfig b h s d) =
        flops (mkAttentionConfig b h s d) / bytesMoved (mkAttentionConfig b h s d) := by
  have htne : t ≠ 0 := ne_of_gt ht
  refine ⟨rfl, bytesMoved_eq_of_bounds hb hh hs hd hbound, ?_, ?_, rfl⟩
  · unfold gflops
    field_simp
    ring
  · unfold bandwidth_gb
    field_simp
    ring

/-- C5 witness: the metric-derivation statement instantiated at descriptor
`(1, 8, 256, 64)` with a one-millisecond measurement. -/
theorem metric_derivation_witness :
    flops (mkAttentionConfig 1 8 256 64) =
        2 * ((1 : ℤ) : ℚ) * ((8 : ℤ) : ℚ) * ((256 : ℤ) : ℚ) *
          ((256 : ℤ) : ℚ) * ((64 : ℤ) : ℚ) ∧
      bytesMoved (mkAttentionConfig 1 8 256 64) =
        (qkv_size (mkAttentionConfig 1 8 256 64) : ℚ) +
          (qkv_size (mkAttentionConfig 1 8 256 64) : ℚ) +
          (qkv_size (mkAttentionConfig 1 8 256 64) : ℚ) +
          (output_size (mkAttentionConfig 1 8 256 64) : ℚ) ∧
      gflops (mkAttentionConfig 1 8 256 64) 1 * 10 ^ 9 =
        flops (mkAttentionConfig 1 8 256 64) / ((1 : ℚ) / 1000) ∧
      bandwidth_gb (mkAttentionConfig 1 8 256 64) 1 * 10 ^ 9 =
        bytesMoved (mkAttentionConfig 1 8 256 64) / ((1 : ℚ) / 1000) ∧
      arithmetic_intensity (mkAttentionConfig 1 8 256 64) =
        flops (mkAttentionConfig 1 8 256 64) /
          bytesMoved (mkAttentionConfig 1 8 256 64) :=
  metric_derivation 1 8 256 64 1 (by norm_num) (by norm_num) (by norm_num)
    (by norm_num) (by decide) (by norm_num)

/-- C6: the report classifies the workload as memory-bound (`YES`) exactly
when the computed arithmetic intensity — FLOPs divided by bytes — is
strictly below 10 FLOP per byte. -/
theorem memory_bound_iff (b h s d : ℤ) (t : ℚ) :
    (print_stats (mkAttentionConfig b h s d) t).memory_bound = true ↔
      flops (mkAttentionConfig b h s d) /
          bytesMoved (mkAttentionConfig b h s d) < 10 := by
  unfold print_stats
  simp only [decide_eq_true_eq]
  rfl

/-! ## Claim theorems: scale derivation -/

/-- C8: every descriptor derives `scale = 1 / sqrt(head_dim)` at
construction; for positive `head_dim` this makes `scale` the positive real
whose square multiplied by `head_dim` is exactly 1. -/
theorem scale_derivation (b h s d : ℤ) (hd : 0 < d) :
    (mkAttentionConfig b h s d).scale = 1 / Real.sqrt (d : ℝ) ∧
      0 < (mkAttentionConfig b h s d).scale ∧
      (mkAttentionConfig b h s d).scale ^ 2 * (d : ℝ) = 1 := by
  have hd' : (0 : ℝ) < (d : ℝ) := by exact_mod_cast hd
  have hsqrt : 0 < Real.sqrt (d : ℝ) := Real.sqrt_pos.mpr hd'
  refine ⟨rfl, ?_, ?_⟩
  · show 0 < 1 / Real.sqrt (d : ℝ)
    positivity
  · show (1 / Real.sqrt (d : ℝ)) ^ 2 * (d : ℝ) = 1
    rw [div_pow, one_pow, Real.sq_sqrt hd'.le]
    field_simp

/-- C8 witness: the scale derivation at descriptor `(1, 1, 1, 4)`. -/
theorem scale_derivation_witness :
    (mkAttentionConfig 1 1 1 4).scale = 1 / Real.sqrt ((4 : ℤ) : ℝ) ∧
      0 < (mkAttentionConfig 1 1 1 4).scale ∧
      (mkAttentionConfig 1 1 1 4).scale ^ 2 * ((4 : ℤ) : ℝ) = 1 :=
  scale_derivation 1 1 1 4 (by norm_num)

/-! ## Claim theorems: init_random -/

lemma randOut_le (st : ℕ) : randOut st ≤ 32767 := by
  unfold randOut
  omega

lemma fillRandom_mem_bounds :
    ∀ (n st : ℕ), ∀ v ∈ (fillRandom n st).1,
      -(1 / 20 : ℚ) ≤ v ∧ v ≤ 1 / 20 := by
  intro n
  induction n with
  | zero => intro st v hv; simp [fillRandom] at hv
  | succ n ih =>
    intro st v hv
    simp only [fillRandom, List.mem_cons] at hv
    rcases hv with hv | hv
    · subst hv
      have hle : (randOut (randNext st) : ℚ) ≤ 32767 := by
        exact_mod_cast randOut_le (randNext st)
      have hge : (0 : ℚ) ≤ (randOut (randNext st) : ℚ) := by positivity
      have hq1 : (randOut (randNext st) : ℚ) / (RAND_MAX : ℚ) ≤ 1 := by
        rw [div_le_one (by norm_num [RAND_MAX])]
        simpa [RAND_MAX] using hle
      have hq0 : (0 : ℚ) ≤ (randOut (randNext st) : ℚ) / (RAND_MAX : ℚ) := by
        positivity
      constructor <;> linarith
    · exact ih (randNext st) v hv

/-- C10: `init_random` is a deterministic function of the seed — `srand`
resets the generator state, so the incoming state is irrelevant and two
calls with the same `n` and `seed` write identical buffers — and every
written element lies in the closed interval `[-0.05, 0.05]`
(`-1/20` to `1/20` in exact arithmetic). -/
theorem init_random_spec (st1 st2 n seed : ℕ) :
    (init_random st1 n seed).1 = (init_random st2 n seed).1 ∧
      ∀ v ∈ (init_random st1 n seed).1, -(1 / 20 : ℚ) ≤ v ∧ v ≤ 1 / 20 :=
  ⟨rfl, fillRandom_mem_bounds n seed⟩

/-- C10 witness: two differently pre-seeded generators filling three
elements from seed 42 agree, and the first written element is within
`[-0.05, 0.05]`. -/
theorem init_random_spec_witness :
    (init_random 0 3 42).1 = (init_random 5 3 42).1 ∧
      (-(1 / 20 : ℚ) ≤ (init_random 0 3 42).1.getD 0 0 ∧
        (init_random 0 3 42).1.getD 0 0 ≤ 1 / 20) :=
  ⟨(init_random_spec 0 5 3 42).1,
    (init_random_spec 0 5 3 42).2 ((init_random 0 3 42).1.getD 0 0)
      (by simp [init_random, fillRandom])⟩

/-! ## Claim theorems: verify_results -/

lemma fgt_fin_check (a b tol : ℚ) :
    fgt (fabsf (fsub (FVal.fin a) (FVal.fin b))) (FVal.fin tol) =
      decide (tol < |a - b|) := rfl

lemma verify_results_none_iff (rs ts : List ℚ) (tol : ℚ)
    (h : rs.length = ts.length) :
    verify_results (rs.map FVal.fin) (ts.map FVal.fin) tol = none ↔
      ∀ i, i < rs.length → |rs.getD i 0 - ts.getD i 0| ≤ tol := by
  induction rs generalizing ts with
  | nil => simp [verify_results]
  | cons r rs ih =>
    cases ts with
    | nil => simp at h
    | cons t ts =>
      have h' : rs.length = ts.length := by simpa using h
      by_cases hc : tol < |r - t|
      · constructor
        · intro hnone
          exfalso
          simp [verify_results, fgt_fin_check, hc] at hnone
        · intro hall
          exfalso
          have h0 := hall 0 (by simp)
          simp only [List.getD_cons_zero] at h0
          linarith
      · have hle : |r - t| ≤ tol := le_of_not_lt hc
        have hstep : verify_results ((r :: rs).map FVal.fin)
            ((t :: ts).map FVal.fin) tol =
            (verify_results (rs.map FVal.fin) (ts.map FVal.fin) tol).map
              fun x => (x.1 + 1, x.2) := by
          simp [verify_results, fgt_fin_check, hc]
        rw [hstep, Option.map_eq_none', ih ts h']
        constructor
        · intro hall i hi
          match i with
          | 0 => simpa using hle
          | j + 1 =>
            simp only [List.getD_cons_succ]
            exact hall j (by simpa using hi)
        · intro hall j hj
          have := hall (j + 1) (by simpa using hj)
          simpa using this

lemma verify_results_first (rs : List ℚ) : ∀ (ts : List ℚ) (tol : ℚ),
    rs.length = ts.length → ∀ i, i < rs.length →
    tol < |rs.getD i 0 - ts.getD i 0| →
    (∀ j, j < i → |rs.getD j 0 - ts.getD j 0| ≤ tol) →
    verify_results (rs.map FVal.fin) (ts.map FVal.fin) tol =
      some (i, FVal.fin (rs.getD i 0), FVal.fin (ts.getD i 0)) := by
  induction rs with
  | nil => intro ts tol h i hi; simp at hi
  | cons r rs ih =>
    intro ts tol h i hi hdiff hfirst
    cases ts with
    | nil => simp at h
    | cons t ts =>
      have h' : rs.length = ts.length := by simpa using h
      match i with
      | 0 =>
        simp only [List.getD_cons_zero] at hdiff ⊢
        simp [verify_results, fgt_fin_check, hdiff]
      | j + 1 =>
        have hj0 : |r - t| ≤ tol := by
          simpa using hfirst 0 (Nat.succ_pos j)
        have hc : ¬ tol < |r - t| := not_lt.mpr hj0
        have hrec := ih ts tol h' j (by simpa using hi)
          (by simpa using hdiff)
          (fun k hk => by simpa using hfirst (k + 1) (by omega))
        simp only [List.getD_cons_succ]
        simp [verify_results, fgt_fin_check, hc, hrec]

/-- C7: on equal-length buffers of finite values, `verify_results` returns
true (`none`) exactly when every index differs by at most `tol`; and at the
least index whose absolute difference exceeds `tol` it reports that index
together with both values. -/
theorem verify_results_spec (rs ts : List ℚ) (tol : ℚ)
    (h : rs.length = ts.length) :
    (verify_results (rs.map FVal.fin) (ts.map FVal.fin) tol = none ↔
        ∀ i, i < rs.length → |rs.getD i 0 - ts.getD i 0| ≤ tol) ∧
      ∀ i, i < rs.length → tol < |rs.getD i 0 - ts.getD i 0| →
        (∀ j, j < i → |rs.getD j 0 - ts.getD j 0| ≤ tol) →
        verify_results (rs.map FVal.fin) (ts.map FVal.fin) tol =
          some (i, FVal.fin (rs.getD i 0), FVal.fin (ts.getD i 0)) :=
  ⟨verify_results_none_iff rs ts tol h, verify_results_first rs ts tol h⟩

/-- C7 witness: on `ref = [1, 2]`, `test = [1, 5/2]` with the default
tolerance `1/1000`, the mismatch at index 1 is the first one and is
reported with both values. -/
theorem verify_results_spec_witness :
    verify_results ([1, 2].map FVal.fin) ([1, 5/2].map FVal.fin) (1/1000) =
      some (1, FVal.fin (([1, 2] : List ℚ).getD 1 0),
        FVal.fin (([1, 5/2] : List ℚ).getD 1 0)) :=
  (verify_results_spec [1, 2] [1, 5/2] (1/1000) rfl).2 1 (by norm_num)
    (by
      simp only [List.getD_cons_succ, List.getD_cons_zero]
      rw [lt_abs]
      norm_num) (by
      intro j hj
      interval_cases j
      norm_num)

/-- C9: a comparison involving NaN never counts as a mismatch — the IEEE
test `diff > tol` is false when `diff` is NaN — and consequently
`verify_results` returns true (`none`) on buffers whose every element is
NaN. -/
theorem verify_results_nan_spec :
    (∀ (r t : FVal) (tol : ℚ), (r = FVal.nan ∨ t = FVal.nan) →
        fgt (fabsf (fsub r t)) (FVal.fin tol) = false) ∧
      ∀ (rs ts : List FVal) (tol : ℚ), (∀ v ∈ rs, v = FVal.nan) →
        (∀ v ∈ ts, v = FVal.nan) → verify_results rs ts tol = none := by
  constructor
  · intro r t tol hrt
    rcases hrt with hr | ht
    · subst hr; cases t <;> rfl
    · subst ht; cases r <;> rfl
  · intro rs
    induction rs with
    | nil => intro ts tol _ _; rfl
    | cons r rs ih =>
      intro ts tol hr ht
      cases ts with
      | nil => rfl
      | cons t ts =>
        have hr0 : r = FVal.nan := hr r (List.mem_cons_self r rs)
        subst hr0
        have hcheck : fgt (fabsf (fsub FVal.nan t)) (FVal.fin tol) = false := by
          cases t <;> rfl
        simp [verify_results, hcheck,
          ih ts tol (fun v hv => hr v (List.mem_cons_of_mem _ hv))
            (fun v hv => ht v (List.mem_cons_of_mem _ hv))]

/-- C9 witness: a NaN against a finite value is no mismatch, and
`verify_results` accepts two all-NaN buffers. -/
theorem verify_results_nan_spec_witness :
    fgt (fabsf (fsub FVal.nan (FVal.fin 3))) (FVal.fin (1/1000)) = false ∧
      verify_results [FVal.nan, FVal.nan] [FVal.nan, FVal.nan] (1/1000) =
        none :=
  ⟨verify_results_nan_spec.1 FVal.nan (FVal.fin 3) (1/1000) (Or.inl rfl),
    verify_results_nan_spec.2 [FVal.nan, FVal.nan] [FVal.nan, FVal.nan]
      (1/1000) (by simp) (by simp)⟩

/-! ## Claim theorems: strategy equivalence (modelled from the spec) -/

lemma foldl_max_comm (L : List ℝ) : ∀ (a b : ℝ),
    L.foldl max (max a b) = max a (L.foldl max b) := by
  induction L with
  | nil => intro a b; rfl
  | cons c t ih =>
    intro a b
    simp only [List.foldl_cons]
    rw [max_assoc, ih]

lemma maxList_cons (x : ℝ) (xs : List ℝ) :
    maxList (x :: xs) = xs.foldl max x := by
  simp [maxList, List.foldl_cons, max_self]

lemma maxList_cons_ne (x : ℝ) (xs : List ℝ) (h : xs ≠ []) :
    maxList (x :: xs) = max x (maxList xs) := by
  cases xs with
  | nil => exact absurd rfl h
  | cons y ys =>
    rw [maxList_cons, maxList_cons, List.foldl_cons, foldl_max_comm]

lemma maxList_append (A B : List ℝ) (hA : A ≠ []) (hB : B ≠ []) :
    maxList (A ++ B) = max (maxList A) (maxList B) := by
  induction A with
  | nil => exact absurd rfl hA
  | cons a as ih =>
    cases as with
    | nil =>
      have h1 : maxList [a] = a := by simp [maxList]
      rw [List.cons_append, List.nil_append, maxList_cons_ne a B hB, h1]
    | cons a2 as2 =>
      have hne : (a2 :: as2) ++ B ≠ [] := by simp
      rw [List.cons_append, maxList_cons_ne a _ hne, ih (by simp),
        maxList_cons_ne a _ (by simp), max_assoc]

lemma scoresMax_append {d : ℕ} (A B : List (ℝ × (Fin d → ℝ)))
    (hA : A ≠ []) (hB : B ≠ []) :
    scoresMax (A ++ B) = max (scoresMax A) (scoresMax B) := by
  unfold scoresMax
  rw [List.map_append]
  exact maxList_append _ _ (by simpa using hA) (by simpa using hB)

lemma list_sum_mul {α : Type} (L : List α) (f : α → ℝ) (c : ℝ) :
    (L.map f).sum * c = (L.map fun x => f x * c).sum := by
  induction L with
  | nil => simp
  | cons a t ih => simp [List.map_cons, List.sum_cons, add_mul, ih]

lemma streamStep_invariant {d : ℕ} (st : StreamState d)
    (P B : List (ℝ × (Fin d → ℝ))) (hP : P ≠ []) (hB : B ≠ [])
    (hm : st.m = scoresMax P)
    (hl : st.l = (P.map fun x => Real.exp (x.1 - scoresMax P)).sum)
    (hacc : ∀ c, st.acc c =
      (P.map fun x => Real.exp (x.1 - scoresMax P) * x.2 c).sum) :
    (streamStep st B).m = scoresMax (P ++ B) ∧
      (streamStep st B).l =
        ((P ++ B).map fun x => Real.exp (x.1 - scoresMax (P ++ B))).sum ∧
      ∀ c, (streamStep st B).acc c =
        ((P ++ B).map fun x =>
          Real.exp (x.1 - scoresMax (P ++ B)) * x.2 c).sum := by
  have hmax : scoresMax (P ++ B) = max (scoresMax P) (scoresMax B) :=
    scoresMax_append P B hP hB
  refine ⟨?_, ?_, ?_⟩
  · simp only [streamStep, hm, hmax]
  · simp only [streamStep, hm, hl, hmax, List.map_append, List.sum_append]
    rw [list_sum_mul]
    congr 1
    congr 1
    apply List.map_congr_left
    intro x _
    rw [← Real.exp_add]
    congr 1
    ring
  · intro c
    simp only [streamStep, hm, hacc, hmax, List.map_append, List.sum_append]
    rw [list_sum_mul]
    congr 1
    congr 1
    apply List.map_congr_left
    intro x _
    rw [mul_right_comm, ← Real.exp_add]
    congr 2
    ring

lemma streamFoldl_invariant {d : ℕ} :
    ∀ (Bs : List (List (ℝ × (Fin d → ℝ)))), (∀ B ∈ Bs, B ≠ []) →
    ∀ (st : StreamState d) (P : List (ℝ × (Fin d → ℝ))), P ≠ [] →
    st.m = scoresMax P →
    st.l = (P.map fun x => Real.exp (x.1 - scoresMax P)).sum →
    (∀ c, st.acc c =
      (P.map fun x => Real.exp (x.1 - scoresMax P) * x.2 c).sum) →
    (Bs.foldl streamStep st).m = scoresMax (P ++ Bs.flatten) ∧
      (Bs.foldl streamStep st).l =
        ((P ++ Bs.flatten).map fun x =>
          Real.exp (x.1 - scoresMax (P ++ Bs.flatten))).sum ∧
      ∀ c, (Bs.foldl streamStep st).acc c =
        ((P ++ Bs.flatten).map fun x =>
          Real.exp (x.1 - scoresMax (P ++ Bs.flatten)) * x.2 c).sum := by
  intro Bs
  induction Bs with
  | nil =>
    intro _ st P hP hm hl hacc
    simpa using ⟨hm, hl, hacc⟩
  | cons B Bs ih =>
    intro hne st P hP hm hl hacc
    have hB : B ≠ [] := hne B (List.mem_cons_self B Bs)
    have hstep := streamStep_invariant st P B hP hB hm hl hacc
    have hPB : P ++ B ≠ [] := by
      intro hcontra
      exact hP (List.append_eq_nil.mp hcontra).1
    have hrec := ih (fun B2 hB2 => hne B2 (List.mem_cons_of_mem _ hB2))
      (streamStep st B) (P ++ B) hPB hstep.1 hstep.2.1 hstep.2.2
    simpa [List.flatten_cons, ← List.append_assoc] using hrec

lemma streamRow_eq_refRow {d : ℕ} (Bs : List (List (ℝ × (Fin d → ℝ))))
    (hBs : Bs ≠ []) (hne : ∀ B ∈ Bs, B ≠ []) :
    streamRow Bs = refRow Bs.flatten := by
  cases Bs with
  | nil => exact absurd rfl hBs
  | cons B Bs =>
    have hB : B ≠ [] := hne B (List.mem_cons_self B Bs)
    have hinv := streamFoldl_invariant Bs
      (fun B2 hB2 => hne B2 (List.mem_cons_of_mem _ hB2))
      (streamInit B) B hB rfl rfl (fun c => rfl)
    funext c
    show (streamBlocks (B :: Bs)).acc c / (streamBlocks (B :: Bs)).l = _
    have hSB : streamBlocks (B :: Bs) = Bs.foldl streamStep (streamInit B) := rfl
    rw [hSB, (hinv.2.2 c), hinv.2.1]
    simp [refRow, List.flatten_cons]

lemma maxList_map_scoresMax {d : ℕ} :
    ∀ (Bs : List (List (ℝ × (Fin d → ℝ)))), Bs ≠ [] → (∀ B ∈ Bs, B ≠ []) →
    maxList (Bs.map scoresMax) = scoresMax Bs.flatten := by
  intro Bs
  induction Bs with
  | nil => intro h _; exact absurd rfl h
  | cons B Bs ih =>
    intro _ hne
    cases Bs with
    | nil =>
      simp only [List.map_cons, List.map_nil, List.flatten_cons,
        List.flatten_nil, List.append_nil]
      simp [maxList]
    | cons B2 Bs2 =>
      have hB : B ≠ [] := hne B (List.mem_cons_self _ _)
      have hB2 : B2 ≠ [] := hne B2 (by simp)
      have hflat : (B2 :: Bs2).flatten ≠ [] := by
        cases B2 with
        | nil => exact absurd rfl hB2
        | cons y ys => simp [List.flatten_cons]
      rw [List.map_cons, maxList_cons_ne _ _ (by simp),
        ih (by simp) (fun B3 hB3 => hne B3 (List.mem_cons_of_mem _ hB3))]
      have hstep : (B :: B2 :: Bs2).flatten = B ++ (B2 :: Bs2).flatten := rfl
      rw [hstep, scoresMax_append _ _ hB hflat]

lemma sum_map_blocks {α : Type} (Bs : List (List α)) (f : α → ℝ) :
    (Bs.map fun B => ((B.map f).sum)).sum = (Bs.flatten.map f).sum := by
  induction Bs with
  | nil => simp
  | cons B Bs ih =>
    simp [List.flatten_cons, List.map_append, List.sum_append, ih]

lemma tiledRow_eq_refRow {d : ℕ} (Bs : List (List (ℝ × (Fin d → ℝ))))
    (hBs : Bs ≠ []) (hne : ∀ B ∈ Bs, B ≠ []) :
    tiledRow Bs = refRow Bs.flatten := by
  funext c
  unfold tiledRow refRow
  rw [maxList_map_scoresMax Bs hBs hne, sum_map_blocks, sum_map_blocks]

lemma toBlocks_flatten {α : Type} (t : ℕ) :
    ∀ (l : List α), (toBlocks t l).flatten = l
  | [] => by simp [toBlocks]
  | x :: xs => by
    rw [toBlocks]
    simp only [List.flatten_cons]
    rw [toBlocks_flatten t (xs.drop t)]
    simp [List.take_append_drop]
termination_by l => l.length
decreasing_by simp [List.length_drop]; omega

lemma toBlocks_blocks_ne_nil {α : Type} (t : ℕ) :
    ∀ (l : List α), ∀ B ∈ toBlocks t l, B ≠ []
  | [] => by simp [toBlocks]
  | x :: xs => by
    rw [toBlocks]
    intro B hB
    rcases List.mem_cons.mp hB with hB | hB
    · subst hB; simp
    · exact toBlocks_blocks_ne_nil t (xs.drop t) B hB
termination_by l => l.length
decreasing_by simp [List.length_drop]; omega

lemma toBlocks_ne_nil {α : Type} (t : ℕ) (l : List α) (h : l ≠ []) :
    toBlocks t l ≠ [] := by
  cases l with
  | nil => exact absurd rfl h
  | cons x xs => rw [toBlocks]; simp

lemma rowData_ne_nil {s d : ℕ} (hs : 0 < s) (scale : ℝ)
    (Q K V : Fin s → Fin d → ℝ) (i : Fin s) :
    rowData scale Q K V i ≠ [] := by
  unfold rowData
  simp only [ne_eq, List.map_eq_nil_iff]
  intro hcontra
  have := List.length_finRange s
  rw [hcontra] at this
  simp at this
  omega

/-- C1: for every workload shape with at least one key position, every tile
size, every scale and all inputs Q, K, V, the tiled strategy and the
streaming strategy produce exactly the reference strategy's output (the
modelled strategies compute over exact reals), hence every element is
within the absolute tolerance 1e-3 accepted by `verify_results`. -/
theorem strategy_equivalence (Bn Hn s d T : ℕ) (hs : 0 < s) (scale : ℝ)
    (Q K V : Fin Bn → Fin Hn → Fin s → Fin d → ℝ) (b : Fin Bn) (h : Fin Hn)
    (i : Fin s) (c : Fin d) :
    |reference_strategy Bn Hn s d scale Q K V b h i c -
        tiled_strategy Bn Hn s d T scale Q K V b h i c| ≤ 1 / 1000 ∧
      |reference_strategy Bn Hn s d scale Q K V b h i c -
        streaming_strategy Bn Hn s d T scale Q K V b h i c| ≤ 1 / 1000 := by
  have hrow : rowData scale (Q b h) (K b h) (V b h) i ≠ [] :=
    rowData_ne_nil hs scale (Q b h) (K b h) (V b h) i
  have hbne := toBlocks_ne_nil T _ hrow
  have hblocks := toBlocks_blocks_ne_nil T
    (rowData scale (Q b h) (K b h) (V b h) i)
  have ht : tiled_strategy Bn Hn s d T scale Q K V b h i =
      reference_strategy Bn Hn s d scale Q K V b h i := by
    unfold tiled_strategy reference_strategy
    rw [tiledRow_eq_refRow _ hbne hblocks, toBlocks_flatten]
  have hf : streaming_strategy Bn Hn s d T scale Q K V b h i =
      reference_strategy Bn Hn s d scale Q K V b h i := by
    unfold streaming_strategy reference_strategy
    rw [streamRow_eq_refRow _ hbne hblocks, toBlocks_flatten]
  rw [congrFun ht c, congrFun hf c, sub_self, abs_zero]
  norm_num

/-- C1 witness: the equivalence at the one-element workload
`Bn = Hn = s = d = 1` with zero inputs and unit scale. -/
theorem strategy_equivalence_witness :
    |reference_strategy 1 1 1 1 1 (fun _ _ _ _ => 0) (fun _ _ _ _ => 0)
        (fun _ _ _ _ => 0) 0 0 0 0 -
      tiled_strategy 1 1 1 1 0 1 (fun _ _ _ _ => 0) (fun _ _ _ _ => 0)
        (fun _ _ _ _ => 0) 0 0 0 0| ≤ 1 / 1000 ∧
    |reference_strategy 1 1 1 1 1 (fun _ _ _ _ => 0) (fun _ _ _ _ => 0)
        (fun _ _ _ _ => 0) 0 0 0 0 -
      streaming_strategy 1 1 1 1 0 1 (fun _ _ _ _ => 0) (fun _ _ _ _ => 0)
        (fun _ _ _ _ => 0) 0 0 0 0| ≤ 1 / 1000 :=
  strategy_equivalence 1 1 1 1 0 (by norm_num) 1 (fun _ _ _ _ => 0)
    (fun _ _ _ _ => 0) (fun _ _ _ _ => 0) 0 0 0 0

end AttentionDeepDive
